import Mathlib

/-!
Verification of the comment-extraction scanners of `parse_comments.py`.

The module scans source text line by line with small per-dialect state
machines and yields `(comment, line number, start index)` tuples.  We embed
the three scanner functions (`c_style`, `py_style`, `xml_style`) and the
dispatcher (`check_file`) shallowly:

* a Python string is a `List Char`; the input file is the list of its lines,
  each line carrying its trailing newline character except possibly the last
  (exactly the sequence Python's line iteration produces);
* each `yield` becomes an element of the returned record list;
* the per-line `while` loop becomes a fuel-indexed structural recursion; the
  index strictly increases at every iteration and the loop runs only while
  `index < len(line) - 1`, so fuel `line.length + 1` is never exhausted;
* the module-level variable `SPACES_FOR_TAB` becomes an explicit parameter
  `w` (the spec constrains it to be ≥ 1; the reference default is 4);
* `py_style` reads the local variable `comment_block` before any assignment
  on many paths; Python raises `UnboundLocalError` there.  We model the
  generator's outcome as `PyOut`: either a normal final state or `PyOut.err`
  for the raise, keeping the records yielded before the exception.
-/

namespace CommentsParser

/-- A yielded tuple `(comment, line number of the comment, starting index)`. -/
structure CommentRec where
  text : List Char
  line : Nat
  col : Nat
deriving DecidableEq, Repr

/-- `matchAt l i p` is Python's `l[i:i+len(p)] == p`. -/
def matchAt (l : List Char) (i : Nat) (p : List Char) : Bool :=
  decide ((l.drop i).take p.length = p)

/-- `findFrom l p s` is Python's `l.find(p, s)`: the least index `≥ s` at
which `p` occurs in `l`, or `none` (Python's `-1`). -/
def findFrom (l p : List Char) (s : Nat) : Option Nat :=
  (List.range (l.length + 1)).find? (fun i => decide (s ≤ i) && matchAt l i p)

/-- `hasSub l p` is Python's `p in l`. -/
def hasSub (l p : List Char) : Bool := (findFrom l p 0).isSome

/-- Python's slice `l[a:b]` (for the in-range uses of the source). -/
def slice (l : List Char) (a b : Nat) : List Char := (l.drop a).take (b - a)

/-- The tab-expansion correction term `(line.count('\t', 0, k))*(w - 1)`
added by the source at the emission points that count tabs. -/
def tabsWin (w : Nat) (l : List Char) (k : Nat) : Nat :=
  ((l.take k).count '\t') * (w - 1)

/-! ## C-style scanner (`c_style`, source lines 78–179) -/

/-- State of the `c_style` machine: `0` (looking for a comment start), `1`
(inside a quoted string, remembering `string_start`), `2` (inside a
multi-line `/* … */` block).  `string_start` is assigned exactly when the
machine enters state 1 and read only there, so it is carried in the state. -/
inductive CState where
  | normal
  | inString (q : Char)
  | inBlock
deriving DecidableEq, Repr

def tokSS : List Char := ['/', '/']
def tokSB : List Char := ['/', '*']
def tokBS : List Char := ['*', '/']

/-- The inner `while index < (len(line) - 1)` loop of `c_style`.  `fuel`
bounds the number of iterations; the loop index strictly increases, so
`line.length + 1` fuel is always sufficient. -/
def cLine (w : Nat) (l : List Char) (ln : Nat) :
    Nat → Nat → CState → List CommentRec × CState
  | 0, _, st => ([], st)
  | fuel+1, i, st =>
    if i < l.length - 1 then
      match st with
      | CState.normal =>
        if matchAt l i tokSS then
          ([⟨l.drop (i+2), ln, i + 2 + tabsWin w l (i+2)⟩], CState.normal)
        else if matchAt l i tokSB then
          match findFrom l tokBS (i+2) with
          | none =>
            ([⟨l.drop (i+2), ln, i + 2 + tabsWin w l (i+2)⟩], CState.inBlock)
          | some pos =>
            (⟨slice l (i+2) pos, ln, i + 2 + tabsWin w l (i+2)⟩ ::
               (cLine w l ln fuel (pos+2) CState.normal).1,
             (cLine w l ln fuel (pos+2) CState.normal).2)
        else if l.getD i ' ' = '"' then
          cLine w l ln fuel (i+1) (CState.inString '"')
        else if l.getD i ' ' = '\'' then
          cLine w l ln fuel (i+1) (CState.inString '\'')
        else
          cLine w l ln fuel (i+1) CState.normal
      | CState.inString q =>
        if l.getD i ' ' = q ∧
            (if i = 0 then l.getD (l.length - 1) ' ' else l.getD (i-1) ' ') ≠ '\\' then
          cLine w l ln fuel (i+1) CState.normal
        else
          cLine w l ln fuel (i+1) (CState.inString q)
      | CState.inBlock =>
        match findFrom l tokBS i with
        | none => ([⟨l.drop i, ln, i⟩], CState.inBlock)
        | some pos =>
          (⟨slice l i pos, ln, i⟩ :: (cLine w l ln fuel (pos+2) CState.normal).1,
           (cLine w l ln fuel (pos+2) CState.normal).2)
    else ([], st)

/-- The per-line fast path test `all(x not in line for x in ['//','/*','*/'])`. -/
def cSkip (l : List Char) : Bool :=
  !hasSub l tokSS && !hasSub l tokSB && !hasSub l tokBS

/-- The `for line in src_file` loop of `c_style`, with the fast path. -/
def cScanF (w : Nat) : List (List Char) → Nat → CState → List CommentRec × CState
  | [], _, st => ([], st)
  | l :: ls, ln, st =>
    if cSkip l ∧ st ≠ CState.inBlock then cScanF w ls (ln+1) st
    else
      ((cLine w l ln (l.length + 1) 0 st).1 ++
         (cScanF w ls (ln+1) (cLine w l ln (l.length + 1) 0 st).2).1,
       (cScanF w ls (ln+1) (cLine w l ln (l.length + 1) 0 st).2).2)

/-- `c_style` on a file given as its list of lines; returns the yielded
records and the final machine state. -/
def c_style (w : Nat) (lines : List (List Char)) : List CommentRec × CState :=
  cScanF w lines 1 CState.normal

/-- The same scanner with the per-line fast path removed (every line goes
through the character loop).  Used to check the spec's claim that the fast
path is only a performance optimization. -/
def cScanS (w : Nat) : List (List Char) → Nat → CState → List CommentRec × CState
  | [], _, st => ([], st)
  | l :: ls, ln, st =>
    ((cLine w l ln (l.length + 1) 0 st).1 ++
       (cScanS w ls (ln+1) (cLine w l ln (l.length + 1) 0 st).2).1,
     (cScanS w ls (ln+1) (cLine w l ln (l.length + 1) 0 st).2).2)

/-- `c_style` without the fast path. -/
def c_styleNoSkip (w : Nat) (lines : List (List Char)) : List CommentRec × CState :=
  cScanS w lines 1 CState.normal

/-! ## Python-style scanner (`py_style`, source lines 182–244) -/

/-- State of the `py_style` machine: `0` (normal) or `1` (inside a
triple-quoted block). -/
inductive PSt where
  | normal
  | inBlock
deriving DecidableEq, Repr

/-- Outcome of running (part of) `py_style`: either the final values of the
locals `state`, `comment_block` and `block_start`, or `PyOut.err` for the
`UnboundLocalError` Python raises when `comment_block` (or `block_start`) is
read before any assignment.  The two trackable locals are `Option`-valued:
`none` means "not yet assigned". -/
inductive PyOut where
  | ok (st : PSt) (cb : Option Bool) (bs : Option (List Char))
  | err
deriving DecidableEq, Repr

def pyT1 : List Char := ['\'', '\'', '\'']
def pyT2 : List Char := ['"', '"', '"']

/-- The inner `while index < (len(line) - 1)` loop of `py_style`.

The source sets `comment_block = True` together with `block_start` in the
two triple-quote branches and tests `if comment_block:` immediately after
the branch chain, resetting it to `False`; on those two paths the test is
inlined here with the just-assigned delimiter.  On the `#` path and the
no-match path `comment_block` and `block_start` keep their incoming values,
and reading an unassigned one raises (`PyOut.err`), after any records
already yielded. -/
def pyLine (w : Nat) (l : List Char) (ln : Nat) :
    Nat → Nat → PSt → Option Bool → Option (List Char) → List CommentRec × PyOut
  | 0, _, st, cb, bs => ([], PyOut.ok st cb bs)
  | fuel+1, i, st, cb, bs =>
    if i < l.length - 1 then
      match st with
      | PSt.normal =>
        if l.getD i ' ' = '#' then
          -- yield, `state = 0`, then fall through to `if comment_block:`
          match cb with
          | none => ([⟨l.drop (i+1), ln, i + 1 + tabsWin w l (i+2)⟩], PyOut.err)
          | some false =>
            (⟨l.drop (i+1), ln, i + 1 + tabsWin w l (i+2)⟩ ::
               (pyLine w l ln fuel (i+1) PSt.normal (some false) bs).1,
             (pyLine w l ln fuel (i+1) PSt.normal (some false) bs).2)
          | some true =>
            match bs with
            | none => ([⟨l.drop (i+1), ln, i + 1 + tabsWin w l (i+2)⟩], PyOut.err)
            | some b =>
              match findFrom l b (i+3) with
              | none =>
                ([⟨l.drop (i+1), ln, i + 1 + tabsWin w l (i+2)⟩,
                  ⟨l.drop (i+3), ln, i + 3 + tabsWin w l (i+2)⟩],
                 PyOut.ok PSt.inBlock (some false) (some b))
              | some pos =>
                (⟨l.drop (i+1), ln, i + 1 + tabsWin w l (i+2)⟩ ::
                   ⟨slice l (i+3) pos, ln, i + 3 + tabsWin w l (i+2)⟩ ::
                   (pyLine w l ln fuel (pos+3) PSt.normal (some false) (some b)).1,
                 (pyLine w l ln fuel (pos+3) PSt.normal (some false) (some b)).2)
        else if matchAt l i pyT1 then
          match findFrom l pyT1 (i+3) with
          | none =>
            ([⟨l.drop (i+3), ln, i + 3 + tabsWin w l (i+2)⟩],
             PyOut.ok PSt.inBlock (some false) (some pyT1))
          | some pos =>
            (⟨slice l (i+3) pos, ln, i + 3 + tabsWin w l (i+2)⟩ ::
               (pyLine w l ln fuel (pos+3) PSt.normal (some false) (some pyT1)).1,
             (pyLine w l ln fuel (pos+3) PSt.normal (some false) (some pyT1)).2)
        else if matchAt l i pyT2 then
          match findFrom l pyT2 (i+3) with
          | none =>
            ([⟨l.drop (i+3), ln, i + 3 + tabsWin w l (i+2)⟩],
             PyOut.ok PSt.inBlock (some false) (some pyT2))
          | some pos =>
            (⟨slice l (i+3) pos, ln, i + 3 + tabsWin w l (i+2)⟩ ::
               (pyLine w l ln fuel (pos+3) PSt.normal (some false) (some pyT2)).1,
             (pyLine w l ln fuel (pos+3) PSt.normal (some false) (some pyT2)).2)
        else
          -- no branch taken: still reaches `if comment_block:`
          match cb with
          | none => ([], PyOut.err)
          | some false => pyLine w l ln fuel (i+1) PSt.normal (some false) bs
          | some true =>
            match bs with
            | none => ([], PyOut.err)
            | some b =>
              match findFrom l b (i+3) with
              | none =>
                ([⟨l.drop (i+3), ln, i + 3 + tabsWin w l (i+2)⟩],
                 PyOut.ok PSt.inBlock (some false) (some b))
              | some pos =>
                (⟨slice l (i+3) pos, ln, i + 3 + tabsWin w l (i+2)⟩ ::
                   (pyLine w l ln fuel (pos+3) PSt.normal (some false) (some b)).1,
                 (pyLine w l ln fuel (pos+3) PSt.normal (some false) (some b)).2)
      | PSt.inBlock =>
        match bs with
        | none => ([], PyOut.err)
        | some b =>
          match findFrom l b i with
          | none => ([⟨l.drop i, ln, i⟩], PyOut.ok PSt.inBlock cb bs)
          | some pos =>
            (⟨slice l i pos, ln, i⟩ ::
               (pyLine w l ln fuel (pos+3) PSt.normal cb bs).1,
             (pyLine w l ln fuel (pos+3) PSt.normal cb bs).2)
    else ([], PyOut.ok st cb bs)

/-- The fast path test `all(x not in line for x in ['#', "\'''", '\"""'])`. -/
def pySkip (l : List Char) : Bool :=
  !hasSub l ['#'] && !hasSub l pyT1 && !hasSub l pyT2

/-- The `for line in src_file` loop of `py_style`.  An `UnboundLocalError`
aborts the generator: the records yielded so far are kept and no further
line is scanned. -/
def pyScanF (w : Nat) :
    List (List Char) → Nat → PSt → Option Bool → Option (List Char) →
      List CommentRec × PyOut
  | [], _, st, cb, bs => ([], PyOut.ok st cb bs)
  | l :: ls, ln, st, cb, bs =>
    if pySkip l ∧ st ≠ PSt.inBlock then pyScanF w ls (ln+1) st cb bs
    else
      match pyLine w l ln (l.length + 1) 0 st cb bs with
      | (rs, PyOut.err) => (rs, PyOut.err)
      | (rs, PyOut.ok st' cb' bs') =>
        (rs ++ (pyScanF w ls (ln+1) st' cb' bs').1,
         (pyScanF w ls (ln+1) st' cb' bs').2)

/-- `py_style` on a file given as its list of lines. -/
def py_style (w : Nat) (lines : List (List Char)) : List CommentRec × PyOut :=
  pyScanF w lines 1 PSt.normal none none

/-! ## XML-style scanner (`xml_style`, source lines 247–295) -/

/-- State of the `xml_style` machine: `0` (normal) or `1` (inside a
`<!-- … -->` block). -/
inductive XSt where
  | normal
  | inBlock
deriving DecidableEq, Repr

def xmlOpen : List Char := ['<', '!', '-', '-']
def xmlClose : List Char := ['-', '-', '>']

/-- The inner `while index < (len(line) - 1)` loop of `xml_style`. -/
def xmlLine (w : Nat) (l : List Char) (ln : Nat) :
    Nat → Nat → XSt → List CommentRec × XSt
  | 0, _, st => ([], st)
  | fuel+1, i, st =>
    if i < l.length - 1 then
      match st with
      | XSt.normal =>
        if matchAt l i xmlOpen then
          match findFrom l xmlClose (i+3) with
          | none =>
            ([⟨l.drop (i+4), ln, i + 4 + tabsWin w l (i+2)⟩], XSt.inBlock)
          | some pos =>
            -- source emits from index+4 to end of line (not up to pos), at
            -- column index+4 with no tab correction, then jumps to pos+2
            (⟨l.drop (i+4), ln, i + 4⟩ ::
               (xmlLine w l ln fuel (pos+3) XSt.normal).1,
             (xmlLine w l ln fuel (pos+3) XSt.normal).2)
        else xmlLine w l ln fuel (i+1) XSt.normal
      | XSt.inBlock =>
        match findFrom l xmlClose i with
        | none => ([⟨l.drop i, ln, i⟩], XSt.inBlock)
        | some pos =>
          (⟨slice l i pos, ln, i⟩ :: (xmlLine w l ln fuel (pos+3) XSt.normal).1,
           (xmlLine w l ln fuel (pos+3) XSt.normal).2)
    else ([], st)

/-- The fast path test `all(x not in line for x in ['<!--', '-->'])`. -/
def xmlSkip (l : List Char) : Bool :=
  !hasSub l xmlOpen && !hasSub l xmlClose

/-- The `for line in src_file` loop of `xml_style`. -/
def xmlScanF (w : Nat) : List (List Char) → Nat → XSt → List CommentRec × XSt
  | [], _, st => ([], st)
  | l :: ls, ln, st =>
    if xmlSkip l ∧ st ≠ XSt.inBlock then xmlScanF w ls (ln+1) st
    else
      ((xmlLine w l ln (l.length + 1) 0 st).1 ++
         (xmlScanF w ls (ln+1) (xmlLine w l ln (l.length + 1) 0 st).2).1,
       (xmlScanF w ls (ln+1) (xmlLine w l ln (l.length + 1) 0 st).2).2)

/-- `xml_style` on a file given as its list of lines. -/
def xml_style (w : Nat) (lines : List (List Char)) : List CommentRec × XSt :=
  xmlScanF w lines 1 XSt.normal

/-! ## Dispatcher (`check_file`, source lines 56–75) -/

/-- Which scanner `check_file` selects. -/
inductive Dialect where
  | py
  | c
  | xml
deriving DecidableEq, Repr

/-- The ASCII fragment of Python's `str.lower`, applied per character
(filenames in the spec's examples are ASCII). -/
def lowerChar (c : Char) : Char :=
  if 65 ≤ c.toNat ∧ c.toNat ≤ 90 then Char.ofNat (c.toNat + 32) else c

/-- The ASCII upper-casing used to state the case-insensitivity claim. -/
def upperChar (c : Char) : Char :=
  if 97 ≤ c.toNat ∧ c.toNat ≤ 122 then Char.ofNat (c.toNat - 32) else c

/-- `check_file`, modelled as returning which scanner it dispatches to
(`none` when the extension matches no known type). -/
def check_file (src : List Char) : Option Dialect :=
  if ".py".toList.isSuffixOf (src.map lowerChar) then some Dialect.py
  else if ".cpp".toList.isSuffixOf (src.map lowerChar) ||
      ".c".toList.isSuffixOf (src.map lowerChar) ||
      ".h".toList.isSuffixOf (src.map lowerChar) then some Dialect.c
  else if ".xml".toList.isSuffixOf (src.map lowerChar) ||
      ".html".toList.isSuffixOf (src.map lowerChar) ||
      ".htm".toList.isSuffixOf (src.map lowerChar) then some Dialect.xml
  else none

/-! ## Lemmas about the string primitives -/

lemma matchAt_iff {l : List Char} {i : Nat} {p : List Char} :
    matchAt l i p = true ↔ (l.drop i).take p.length = p := by
  simp [matchAt]

lemma matchAt_le_length {l : List Char} {i : Nat} {p : List Char}
    (hp : p ≠ []) (h : matchAt l i p = true) : i + p.length ≤ l.length := by
  rw [matchAt_iff] at h
  have hlen : ((l.drop i).take p.length).length = p.length := by rw [h]
  rw [List.length_take, List.length_drop] at hlen
  rcases Nat.le_total i l.length with hi | hi
  · omega
  · exfalso
    have : l.drop i = [] := List.drop_eq_nil_of_le hi
    rw [this] at h
    simp at h
    exact hp h

lemma findFrom_some {l p : List Char} {s j : Nat}
    (h : findFrom l p s = some j) : s ≤ j ∧ matchAt l j p = true := by
  have := List.find?_some h
  simp at this
  exact ⟨this.1, this.2⟩

lemma findFrom_none {l p : List Char} {s : Nat} (hp : p ≠ [])
    (h : findFrom l p s = none) : ∀ j, s ≤ j → matchAt l j p = false := by
  intro j hsj
  by_cases hjl : j ≤ l.length
  · have hmem : j ∈ List.range (l.length + 1) := by
      rw [List.mem_range]; omega
    have := List.find?_eq_none.mp h j hmem
    simp at this
    exact this hsj
  · by_contra hm
    have hm' : matchAt l j p = true := by
      cases hmm : matchAt l j p
      · exact absurd hmm hm
      · rfl
    have := matchAt_le_length hp hm'
    have hlp : 1 ≤ p.length := by
      cases p
      · exact absurd rfl hp
      · simp
    omega

lemma hasSub_false {l p : List Char} (hp : p ≠ [])
    (h : hasSub l p = false) : ∀ j, matchAt l j p = false := by
  intro j
  have hnone : findFrom l p 0 = none := by
    cases hf : findFrom l p 0
    · rfl
    · rw [hasSub, hf] at h; simp at h
  exact findFrom_none hp hnone j (Nat.zero_le j)

lemma hasSub_intro {l p : List Char} {j : Nat}
    (_hj : j ≤ l.length) (h : matchAt l j p = true) : hasSub l p = true := by
  rw [hasSub, Option.isSome_iff_ne_none]
  intro hnone
  have := findFrom_none (p := p) ?_ hnone j (Nat.zero_le j)
  · rw [h] at this; simp at this
  · intro hpnil
    subst hpnil
    rw [findFrom] at hnone
    have h0 : (0 : Nat) ∈ List.range (l.length + 1) := by
      rw [List.mem_range]; omega
    have := List.find?_eq_none.mp hnone 0 h0
    simp [matchAt] at this

lemma tabsWin_le (w : Nat) (l : List Char) (k : Nat) :
    tabsWin w l k ≤ l.count '\t' * (w - 1) :=
  Nat.mul_le_mul_right _ (List.Sublist.count_le (List.take_sublist k l) '\t')

lemma getD_mem {l : List Char} {i : Nat} (h : i < l.length) : l.getD i ' ' ∈ l := by
  rw [List.getD_eq_getElem l ' ' h]
  exact List.getElem_mem h

/-! ## Step equations for the C-style line loop -/

lemma cLine_zero (w : Nat) (l : List Char) (ln i : Nat) (st : CState) :
    cLine w l ln 0 i st = ([], st) := rfl

lemma cLine_succ_normal (w : Nat) (l : List Char) (ln fuel i : Nat) :
    cLine w l ln (fuel+1) i CState.normal =
      if i < l.length - 1 then
        if matchAt l i tokSS then
          ([⟨l.drop (i+2), ln, i + 2 + tabsWin w l (i+2)⟩], CState.normal)
        else if matchAt l i tokSB then
          match findFrom l tokBS (i+2) with
          | none =>
            ([⟨l.drop (i+2), ln, i + 2 + tabsWin w l (i+2)⟩], CState.inBlock)
          | some pos =>
            (⟨slice l (i+2) pos, ln, i + 2 + tabsWin w l (i+2)⟩ ::
               (cLine w l ln fuel (pos+2) CState.normal).1,
             (cLine w l ln fuel (pos+2) CState.normal).2)
        else if l.getD i ' ' = '"' then
          cLine w l ln fuel (i+1) (CState.inString '"')
        else if l.getD i ' ' = '\'' then
          cLine w l ln fuel (i+1) (CState.inString '\'')
        else
          cLine w l ln fuel (i+1) CState.normal
      else ([], CState.normal) := rfl

lemma cLine_succ_inString (w : Nat) (l : List Char) (ln fuel i : Nat) (q : Char) :
    cLine w l ln (fuel+1) i (CState.inString q) =
      if i < l.length - 1 then
        if l.getD i ' ' = q ∧
            (if i = 0 then l.getD (l.length - 1) ' ' else l.getD (i-1) ' ') ≠ '\\' then
          cLine w l ln fuel (i+1) CState.normal
        else
          cLine w l ln fuel (i+1) (CState.inString q)
      else ([], CState.inString q) := rfl

lemma cLine_succ_inBlock (w : Nat) (l : List Char) (ln fuel i : Nat) :
    cLine w l ln (fuel+1) i CState.inBlock =
      if i < l.length - 1 then
        match findFrom l tokBS i with
        | none => ([⟨l.drop i, ln, i⟩], CState.inBlock)
        | some pos =>
          (⟨slice l i pos, ln, i⟩ :: (cLine w l ln fuel (pos+2) CState.normal).1,
           (cLine w l ln fuel (pos+2) CState.normal).2)
      else ([], CState.inBlock) := rfl

/-! ## Invariants of the C-style line loop -/

lemma cLine_line (w : Nat) (l : List Char) (ln : Nat) :
    ∀ fuel i st, ∀ r ∈ (cLine w l ln fuel i st).1, r.line = ln := by
  intro fuel
  induction fuel with
  | zero => intro i st r hr; simp [cLine_zero] at hr
  | succ fuel ih =>
    intro i st r hr
    cases st with
    | normal =>
      rw [cLine_succ_normal] at hr
      split at hr
      · split at hr
        · simp at hr; subst hr; rfl
        · split at hr
          · split at hr
            · simp at hr; subst hr; rfl
            · simp at hr
              rcases hr with rfl | hr
              · rfl
              · exact ih _ _ r hr
          · split at hr
            · exact ih _ _ r hr
            · split at hr
              · exact ih _ _ r hr
              · exact ih _ _ r hr
      · simp at hr
    | inString q =>
      rw [cLine_succ_inString] at hr
      split at hr
      · split at hr <;> split at hr <;> exact ih _ _ r hr
      · simp at hr
    | inBlock =>
      rw [cLine_succ_inBlock] at hr
      split at hr
      · split at hr
        · simp at hr; subst hr; rfl
        · simp at hr
          rcases hr with rfl | hr
          · rfl
          · exact ih _ _ r hr
      · simp at hr

lemma cLine_col (w : Nat) (l : List Char) (ln : Nat) :
    ∀ fuel i st, ∀ r ∈ (cLine w l ln fuel i st).1,
      r.col ≤ l.length + l.count '\t' * (w - 1) := by
  intro fuel
  induction fuel with
  | zero => intro i st r hr; simp [cLine_zero] at hr
  | succ fuel ih =>
    intro i st r hr
    cases st with
    | normal =>
      rw [cLine_succ_normal] at hr
      split at hr
      · split at hr
        · rename_i hss
          have hlen := matchAt_le_length (by simp [tokSS]) hss
          simp [tokSS] at hlen
          have htw := tabsWin_le w l (i+2)
          simp at hr; subst hr
          simp only
          omega
        · split at hr
          · rename_i hss hsb
            have hlen := matchAt_le_length (by simp [tokSB]) hsb
            simp [tokSB] at hlen
            have htw := tabsWin_le w l (i+2)
            split at hr
            · simp at hr; subst hr
              simp only
              omega
            · simp at hr
              rcases hr with rfl | hr
              · simp only
                omega
              · exact ih _ _ r hr
          · split at hr
            · exact ih _ _ r hr
            · split at hr
              · exact ih _ _ r hr
              · exact ih _ _ r hr
      · simp at hr
    | inString q =>
      rw [cLine_succ_inString] at hr
      split at hr
      · split at hr <;> split at hr <;> exact ih _ _ r hr
      · simp at hr
    | inBlock =>
      rw [cLine_succ_inBlock] at hr
      split at hr
      · rename_i hguard
        split at hr
        · simp at hr; subst hr
          simp only
          omega
        · simp at hr
          rcases hr with rfl | hr
          · simp only
            omega
          · exact ih _ _ r hr
      · simp at hr

/-! ## Step equations for the Python-style line loop -/

lemma pyLine_zero (w : Nat) (l : List Char) (ln i : Nat) (st : PSt)
    (cb : Option Bool) (bs : Option (List Char)) :
    pyLine w l ln 0 i st cb bs = ([], PyOut.ok st cb bs) := rfl

lemma pyLine_succ_normal (w : Nat) (l : List Char) (ln fuel i : Nat)
    (cb : Option Bool) (bs : Option (List Char)) :
    pyLine w l ln (fuel+1) i PSt.normal cb bs =
      if i < l.length - 1 then
        if l.getD i ' ' = '#' then
          match cb with
          | none => ([⟨l.drop (i+1), ln, i + 1 + tabsWin w l (i+2)⟩], PyOut.err)
          | some false =>
            (⟨l.drop (i+1), ln, i + 1 + tabsWin w l (i+2)⟩ ::
               (pyLine w l ln fuel (i+1) PSt.normal (some false) bs).1,
             (pyLine w l ln fuel (i+1) PSt.normal (some false) bs).2)
          | some true =>
            match bs with
            | none => ([⟨l.drop (i+1), ln, i + 1 + tabsWin w l (i+2)⟩], PyOut.err)
            | some b =>
              match findFrom l b (i+3) with
              | none =>
                ([⟨l.drop (i+1), ln, i + 1 + tabsWin w l (i+2)⟩,
                  ⟨l.drop (i+3), ln, i + 3 + tabsWin w l (i+2)⟩],
                 PyOut.ok PSt.inBlock (some false) (some b))
              | some pos =>
                (⟨l.drop (i+1), ln, i + 1 + tabsWin w l (i+2)⟩ ::
                   ⟨slice l (i+3) pos, ln, i + 3 + tabsWin w l (i+2)⟩ ::
                   (pyLine w l ln fuel (pos+3) PSt.normal (some false) (some b)).1,
                 (pyLine w l ln fuel (pos+3) PSt.normal (some false) (some b)).2)
        else if matchAt l i pyT1 then
          match findFrom l pyT1 (i+3) with
          | none =>
            ([⟨l.drop (i+3), ln, i + 3 + tabsWin w l (i+2)⟩],
             PyOut.ok PSt.inBlock (some false) (some pyT1))
          | some pos =>
            (⟨slice l (i+3) pos, ln, i + 3 + tabsWin w l (i+2)⟩ ::
               (pyLine w l ln fuel (pos+3) PSt.normal (some false) (some pyT1)).1,
             (pyLine w l ln fuel (pos+3) PSt.normal (some false) (some pyT1)).2)
        else if matchAt l i pyT2 then
          match findFrom l pyT2 (i+3) with
          | none =>
            ([⟨l.drop (i+3), ln, i + 3 + tabsWin w l (i+2)⟩],
             PyOut.ok PSt.inBlock (some false) (some pyT2))
          | some pos =>
            (⟨slice l (i+3) pos, ln, i + 3 + tabsWin w l (i+2)⟩ ::
               (pyLine w l ln fuel (pos+3) PSt.normal (some false) (some pyT2)).1,
             (pyLine w l ln fuel (pos+3) PSt.normal (some false) (some pyT2)).2)
        else
          match cb with
          | none => ([], PyOut.err)
          | some false => pyLine w l ln fuel (i+1) PSt.normal (some false) bs
          | some true =>
            match bs with
            | none => ([], PyOut.err)
            | some b =>
              match findFrom l b (i+3) with
              | none =>
                ([⟨l.drop (i+3), ln, i + 3 + tabsWin w l (i+2)⟩],
                 PyOut.ok PSt.inBlock (some false) (some b))
              | some pos =>
                (⟨slice l (i+3) pos, ln, i + 3 + tabsWin w l (i+2)⟩ ::
                   (pyLine w l ln fuel (pos+3) PSt.normal (some false) (some b)).1,
                 (pyLine w l ln fuel (pos+3) PSt.normal (some false) (some b)).2)
      else ([], PyOut.ok PSt.normal cb bs) := rfl

lemma pyLine_succ_inBlock (w : Nat) (l : List Char) (ln fuel i : Nat)
    (cb : Option Bool) (bs : Option (List Char)) :
    pyLine w l ln (fuel+1) i PSt.inBlock cb bs =
      if i < l.length - 1 then
        match bs with
        | none => ([], PyOut.err)
        | some b =>
          match findFrom l b i with
          | none => ([⟨l.drop i, ln, i⟩], PyOut.ok PSt.inBlock cb bs)
          | some pos =>
            (⟨slice l i pos, ln, i⟩ ::
               (pyLine w l ln fuel (pos+3) PSt.normal cb bs).1,
             (pyLine w l ln fuel (pos+3) PSt.normal cb bs).2)
      else ([], PyOut.ok PSt.inBlock cb bs) := rfl

/-! ## Invariants of the Python-style line loop -/

lemma pyLine_line (w : Nat) (l : List Char) (ln : Nat) :
    ∀ fuel i st cb bs, ∀ r ∈ (pyLine w l ln fuel i st cb bs).1, r.line = ln := by
  intro fuel
  induction fuel with
  | zero => intro i st cb bs r hr; simp [pyLine_zero] at hr
  | succ fuel ih =>
    intro i st cb bs r hr
    cases st with
    | normal =>
      rw [pyLine_succ_normal] at hr
      split at hr
      · split at hr
        · -- the '#' branch
          split at hr
          · simp at hr; subst hr; rfl
          · simp at hr
            rcases hr with rfl | hr
            · rfl
            · exact ih _ _ _ _ r hr
          · split at hr
            · simp at hr; subst hr; rfl
            · split at hr
              · simp at hr
                rcases hr with rfl | rfl
                · rfl
                · rfl
              · simp at hr
                rcases hr with rfl | rfl | hr
                · rfl
                · rfl
                · exact ih _ _ _ _ r hr
        · split at hr
          · split at hr
            · simp at hr; subst hr; rfl
            · simp at hr
              rcases hr with rfl | hr
              · rfl
              · exact ih _ _ _ _ r hr
          · split at hr
            · split at hr
              · simp at hr; subst hr; rfl
              · simp at hr
                rcases hr with rfl | hr
                · rfl
                · exact ih _ _ _ _ r hr
            · split at hr
              · simp at hr
              · exact ih _ _ _ _ r hr
              · split at hr
                · simp at hr
                · split at hr
                  · simp at hr; subst hr; rfl
                  · simp at hr
                    rcases hr with rfl | hr
                    · rfl
                    · exact ih _ _ _ _ r hr
      · simp at hr
    | inBlock =>
      rw [pyLine_succ_inBlock] at hr
      split at hr
      · split at hr
        · simp at hr
        · split at hr
          · simp at hr; subst hr; rfl
          · simp at hr
            rcases hr with rfl | hr
            · rfl
            · exact ih _ _ _ _ r hr
      · simp at hr

lemma pyLine_col (w : Nat) (l : List Char) (ln : Nat) :
    ∀ fuel i st cb bs, cb ≠ some true →
      ∀ r ∈ (pyLine w l ln fuel i st cb bs).1,
        r.col ≤ l.length + l.count '\t' * (w - 1) := by
  intro fuel
  induction fuel with
  | zero => intro i st cb bs hcb r hr; simp [pyLine_zero] at hr
  | succ fuel ih =>
    intro i st cb bs hcb r hr
    cases st with
    | normal =>
      rw [pyLine_succ_normal] at hr
      split at hr
      · rename_i hguard
        have htw := tabsWin_le w l (i+2)
        split at hr
        · -- the '#' branch
          split at hr
          · simp at hr; subst hr
            simp only
            omega
          · simp at hr
            rcases hr with rfl | hr
            · simp only
              omega
            · exact ih _ _ _ _ (by simp) r hr
          · exact absurd rfl hcb
        · split at hr
          · rename_i hsome ht1
            have hlen := matchAt_le_length (by simp [pyT1]) ht1
            simp [pyT1] at hlen
            split at hr
            · simp at hr; subst hr
              simp only
              omega
            · simp at hr
              rcases hr with rfl | hr
              · simp only
                omega
              · exact ih _ _ _ _ (by simp) r hr
          · split at hr
            · rename_i hsome ht1 ht2
              have hlen := matchAt_le_length (by simp [pyT2]) ht2
              simp [pyT2] at hlen
              split at hr
              · simp at hr; subst hr
                simp only
                omega
              · simp at hr
                rcases hr with rfl | hr
                · simp only
                  omega
                · exact ih _ _ _ _ (by simp) r hr
            · split at hr
              · simp at hr
              · exact ih _ _ _ _ (by simp) r hr
              · exact absurd rfl hcb
      · simp at hr
    | inBlock =>
      rw [pyLine_succ_inBlock] at hr
      split at hr
      · rename_i hguard
        split at hr
        · simp at hr
        · split at hr
          · simp at hr; subst hr
            simp only
            omega
          · simp at hr
            rcases hr with rfl | hr
            · simp only
              omega
            · exact ih _ _ _ _ hcb r hr
      · simp at hr

/-! ## Step equations and invariants for the XML-style line loop -/

lemma xmlLine_zero (w : Nat) (l : List Char) (ln i : Nat) (st : XSt) :
    xmlLine w l ln 0 i st = ([], st) := rfl

lemma xmlLine_succ_normal (w : Nat) (l : List Char) (ln fuel i : Nat) :
    xmlLine w l ln (fuel+1) i XSt.normal =
      if i < l.length - 1 then
        if matchAt l i xmlOpen then
          match findFrom l xmlClose (i+3) with
          | none =>
            ([⟨l.drop (i+4), ln, i + 4 + tabsWin w l (i+2)⟩], XSt.inBlock)
          | some pos =>
            (⟨l.drop (i+4), ln, i + 4⟩ ::
               (xmlLine w l ln fuel (pos+3) XSt.normal).1,
             (xmlLine w l ln fuel (pos+3) XSt.normal).2)
        else xmlLine w l ln fuel (i+1) XSt.normal
      else ([], XSt.normal) := rfl

lemma xmlLine_succ_inBlock (w : Nat) (l : List Char) (ln fuel i : Nat) :
    xmlLine w l ln (fuel+1) i XSt.inBlock =
      if i < l.length - 1 then
        match findFrom l xmlClose i with
        | none => ([⟨l.drop i, ln, i⟩], XSt.inBlock)
        | some pos =>
          (⟨slice l i pos, ln, i⟩ :: (xmlLine w l ln fuel (pos+3) XSt.normal).1,
           (xmlLine w l ln fuel (pos+3) XSt.normal).2)
      else ([], XSt.inBlock) := rfl

lemma xmlLine_line (w : Nat) (l : List Char) (ln : Nat) :
    ∀ fuel i st, ∀ r ∈ (xmlLine w l ln fuel i st).1, r.line = ln := by
  intro fuel
  induction fuel with
  | zero => intro i st r hr; simp [xmlLine_zero] at hr
  | succ fuel ih =>
    intro i st r hr
    cases st with
    | normal =>
      rw [xmlLine_succ_normal] at hr
      split at hr
      · split at hr
        · split at hr
          · simp at hr; subst hr; rfl
          · simp at hr
            rcases hr with rfl | hr
            · rfl
            · exact ih _ _ r hr
        · exact ih _ _ r hr
      · simp at hr
    | inBlock =>
      rw [xmlLine_succ_inBlock] at hr
      split at hr
      · split at hr
        · simp at hr; subst hr; rfl
        · simp at hr
          rcases hr with rfl | hr
          · rfl
          · exact ih _ _ r hr
      · simp at hr

lemma xmlLine_col (w : Nat) (l : List Char) (ln : Nat) :
    ∀ fuel i st, ∀ r ∈ (xmlLine w l ln fuel i st).1,
      r.col ≤ l.length + l.count '\t' * (w - 1) := by
  intro fuel
  induction fuel with
  | zero => intro i st r hr; simp [xmlLine_zero] at hr
  | succ fuel ih =>
    intro i st r hr
    cases st with
    | normal =>
      rw [xmlLine_succ_normal] at hr
      split at hr
      · rename_i hguard
        split at hr
        · rename_i hop
          have hlen := matchAt_le_length (by simp [xmlOpen]) hop
          simp [xmlOpen] at hlen
          have htw := tabsWin_le w l (i+2)
          split at hr
          · simp at hr; subst hr
            simp only
            omega
          · simp at hr
            rcases hr with rfl | hr
            · simp only
              omega
            · exact ih _ _ r hr
        · exact ih _ _ r hr
      · simp at hr
    | inBlock =>
      rw [xmlLine_succ_inBlock] at hr
      split at hr
      · rename_i hguard
        split at hr
        · simp at hr; subst hr
          simp only
          omega
        · simp at hr
          rcases hr with rfl | hr
          · simp only
            omega
          · exact ih _ _ r hr
      · simp at hr

/-! ## Driver-level lemmas -/

lemma pairwise_of_const {xs : List CommentRec} {n : Nat}
    (h : ∀ r ∈ xs, r.line = n) : xs.Pairwise (fun a b => a.line ≤ b.line) := by
  induction xs with
  | nil => exact List.Pairwise.nil
  | cons a xs ih =>
    refine List.Pairwise.cons ?_ (ih fun r hr => h r (List.mem_cons_of_mem a hr))
    intro b hb
    rw [h a (List.mem_cons_self a xs), h b (List.mem_cons_of_mem a hb)]

lemma cScanF_cons (w : Nat) (l : List Char) (ls : List (List Char))
    (ln : Nat) (st : CState) :
    cScanF w (l :: ls) ln st =
      if cSkip l ∧ st ≠ CState.inBlock then cScanF w ls (ln+1) st
      else
        ((cLine w l ln (l.length + 1) 0 st).1 ++
           (cScanF w ls (ln+1) (cLine w l ln (l.length + 1) 0 st).2).1,
         (cScanF w ls (ln+1) (cLine w l ln (l.length + 1) 0 st).2).2) := rfl

lemma cScanF_line_ge (w : Nat) :
    ∀ ls ln st, ∀ r ∈ (cScanF w ls ln st).1, ln ≤ r.line := by
  intro ls
  induction ls with
  | nil => intro ln st r hr; simp [cScanF] at hr
  | cons l ls ih =>
    intro ln st r hr
    rw [cScanF_cons] at hr
    split at hr
    · have := ih (ln+1) st r hr; omega
    · rw [List.mem_append] at hr
      rcases hr with hr | hr
      · exact le_of_eq (cLine_line w l ln _ _ _ r hr).symm
      · have := ih (ln+1) _ r hr; omega

lemma cScanF_sorted (w : Nat) :
    ∀ ls ln st, ((cScanF w ls ln st).1).Pairwise (fun a b => a.line ≤ b.line) := by
  intro ls
  induction ls with
  | nil => intro ln st; simp [cScanF]
  | cons l ls ih =>
    intro ln st
    rw [cScanF_cons]
    split
    · exact ih (ln+1) st
    · refine List.pairwise_append.mpr ⟨?_, ih (ln+1) _, ?_⟩
      · exact pairwise_of_const (cLine_line w l ln _ _ _)
      · intro a ha b hb
        have h1 := cLine_line w l ln _ _ _ a ha
        have h2 := cScanF_line_ge w ls (ln+1) _ b hb
        omega

lemma cScanF_loc (w : Nat) :
    ∀ ls ln st, ∀ r ∈ (cScanF w ls ln st).1,
      ∃ lx, ls[r.line - ln]? = some lx ∧
        r.col ≤ lx.length + lx.count '\t' * (w - 1) := by
  intro ls
  induction ls with
  | nil => intro ln st r hr; simp [cScanF] at hr
  | cons l ls ih =>
    intro ln st r hr
    rw [cScanF_cons] at hr
    split at hr
    · obtain ⟨lx, hget, hcol⟩ := ih (ln+1) st r hr
      have hge := cScanF_line_ge w ls (ln+1) st r hr
      refine ⟨lx, ?_, hcol⟩
      have hix : r.line - ln = (r.line - (ln+1)) + 1 := by omega
      rw [hix, List.getElem?_cons_succ]
      exact hget
    · rw [List.mem_append] at hr
      rcases hr with hr | hr
      · have hline := cLine_line w l ln _ _ _ r hr
        have hcol := cLine_col w l ln _ _ _ r hr
        refine ⟨l, ?_, hcol⟩
        rw [hline]
        simp
      · obtain ⟨lx, hget, hcol⟩ := ih (ln+1) _ r hr
        have hge := cScanF_line_ge w ls (ln+1) _ r hr
        refine ⟨lx, ?_, hcol⟩
        have hix : r.line - ln = (r.line - (ln+1)) + 1 := by omega
        rw [hix, List.getElem?_cons_succ]
        exact hget

lemma pyScanF_cons (w : Nat) (l : List Char) (ls : List (List Char))
    (ln : Nat) (st : PSt) (cb : Option Bool) (bs : Option (List Char)) :
    pyScanF w (l :: ls) ln st cb bs =
      if pySkip l ∧ st ≠ PSt.inBlock then pyScanF w ls (ln+1) st cb bs
      else
        match pyLine w l ln (l.length + 1) 0 st cb bs with
        | (rs, PyOut.err) => (rs, PyOut.err)
        | (rs, PyOut.ok st' cb' bs') =>
          (rs ++ (pyScanF w ls (ln+1) st' cb' bs').1,
           (pyScanF w ls (ln+1) st' cb' bs').2) := rfl

lemma pyLine_cb (w : Nat) (l : List Char) (ln : Nat) :
    ∀ fuel i st cb bs, cb ≠ some true →
      ∀ st' cb' bs', (pyLine w l ln fuel i st cb bs).2 = PyOut.ok st' cb' bs' →
        cb' ≠ some true := by
  intro fuel
  induction fuel with
  | zero =>
    intro i st cb bs hcb st' cb' bs' h
    rw [pyLine_zero] at h
    simp at h
    rw [← h.2.1]
    exact hcb
  | succ fuel ih =>
    intro i st cb bs hcb st' cb' bs' h
    cases st with
    | normal =>
      rw [pyLine_succ_normal] at h
      split at h
      · split at h
        · split at h
          · simp at h
          · exact ih _ _ _ _ (by simp) _ _ _ h
          · split at h
            · simp at h
            · split at h
              · simp at h
                rw [← h.2.1]
                simp
              · exact ih _ _ _ _ (by simp) _ _ _ h
        · split at h
          · split at h
            · simp at h
              rw [← h.2.1]
              simp
            · exact ih _ _ _ _ (by simp) _ _ _ h
          · split at h
            · split at h
              · simp at h
                rw [← h.2.1]
                simp
              · exact ih _ _ _ _ (by simp) _ _ _ h
            · split at h
              · simp at h
              · exact ih _ _ _ _ (by simp) _ _ _ h
              · exact absurd rfl hcb
      · simp at h
        rw [← h.2.1]
        exact hcb
    | inBlock =>
      rw [pyLine_succ_inBlock] at h
      split at h
      · split at h
        · simp at h
        · split at h
          · simp at h
            rw [← h.2.1]
            exact hcb
          · exact ih _ _ _ _ hcb _ _ _ h
      · simp at h
        rw [← h.2.1]
        exact hcb

lemma pyScanF_line_ge (w : Nat) :
    ∀ ls ln st cb bs, ∀ r ∈ (pyScanF w ls ln st cb bs).1, ln ≤ r.line := by
  intro ls
  induction ls with
  | nil => intro ln st cb bs r hr; simp [pyScanF] at hr
  | cons l ls ih =>
    intro ln st cb bs r hr
    rw [pyScanF_cons] at hr
    split at hr
    · have := ih (ln+1) st cb bs r hr; omega
    · split at hr
      · rename_i rs heq
        have hr1 : r ∈ (pyLine w l ln (l.length + 1) 0 st cb bs).1 := by
          rw [heq]; exact hr
        exact le_of_eq (pyLine_line w l ln _ _ _ _ _ r hr1).symm
      · rename_i rs st' cb' bs' heq
        rw [List.mem_append] at hr
        rcases hr with hr | hr
        · have hr1 : r ∈ (pyLine w l ln (l.length + 1) 0 st cb bs).1 := by
            rw [heq]; exact hr
          exact le_of_eq (pyLine_line w l ln _ _ _ _ _ r hr1).symm
        · have := ih (ln+1) st' cb' bs' r hr; omega

lemma pyScanF_sorted (w : Nat) :
    ∀ ls ln st cb bs,
      ((pyScanF w ls ln st cb bs).1).Pairwise (fun a b => a.line ≤ b.line) := by
  intro ls
  induction ls with
  | nil => intro ln st cb bs; simp [pyScanF]
  | cons l ls ih =>
    intro ln st cb bs
    rw [pyScanF_cons]
    split
    · exact ih (ln+1) st cb bs
    · split
      · rename_i rs heq
        have : rs = (pyLine w l ln (l.length + 1) 0 st cb bs).1 := by rw [heq]
        rw [this]
        exact pairwise_of_const (pyLine_line w l ln _ _ _ _ _)
      · rename_i rs st' cb' bs' heq
        refine List.pairwise_append.mpr ⟨?_, ih (ln+1) st' cb' bs', ?_⟩
        · have : rs = (pyLine w l ln (l.length + 1) 0 st cb bs).1 := by rw [heq]
          rw [this]
          exact pairwise_of_const (pyLine_line w l ln _ _ _ _ _)
        · intro a ha b hb
          have ha1 : a ∈ (pyLine w l ln (l.length + 1) 0 st cb bs).1 := by
            have : rs = (pyLine w l ln (l.length + 1) 0 st cb bs).1 := by rw [heq]
            rw [← this]; exact ha
          have h1 := pyLine_line w l ln _ _ _ _ _ a ha1
          have h2 := pyScanF_line_ge w ls (ln+1) st' cb' bs' b hb
          omega

lemma pyScanF_loc (w : Nat) :
    ∀ ls ln st cb bs, cb ≠ some true →
      ∀ r ∈ (pyScanF w ls ln st cb bs).1,
        ∃ lx, ls[r.line - ln]? = some lx ∧
          r.col ≤ lx.length + lx.count '\t' * (w - 1) := by
  intro ls
  induction ls with
  | nil => intro ln st cb bs hcb r hr; simp [pyScanF] at hr
  | cons l ls ih =>
    intro ln st cb bs hcb r hr
    rw [pyScanF_cons] at hr
    split at hr
    · obtain ⟨lx, hget, hcol⟩ := ih (ln+1) st cb bs hcb r hr
      have hge := pyScanF_line_ge w ls (ln+1) st cb bs r hr
      refine ⟨lx, ?_, hcol⟩
      have hix : r.line - ln = (r.line - (ln+1)) + 1 := by omega
      rw [hix, List.getElem?_cons_succ]
      exact hget
    · split at hr
      · rename_i rs heq
        have hr1 : r ∈ (pyLine w l ln (l.length + 1) 0 st cb bs).1 := by
          rw [heq]; exact hr
        have hline := pyLine_line w l ln _ _ _ _ _ r hr1
        have hcol := pyLine_col w l ln _ _ _ _ _ hcb r hr1
        refine ⟨l, ?_, hcol⟩
        rw [hline]
        simp
      · rename_i rs st' cb' bs' heq
        rw [List.mem_append] at hr
        rcases hr with hr | hr
        · have hr1 : r ∈ (pyLine w l ln (l.length + 1) 0 st cb bs).1 := by
            rw [heq]; exact hr
          have hline := pyLine_line w l ln _ _ _ _ _ r hr1
          have hcol := pyLine_col w l ln _ _ _ _ _ hcb r hr1
          refine ⟨l, ?_, hcol⟩
          rw [hline]
          simp
        · have hcb' : cb' ≠ some true := by
            have h2 : (pyLine w l ln (l.length + 1) 0 st cb bs).2 =
                PyOut.ok st' cb' bs' := by rw [heq]
            exact pyLine_cb w l ln _ _ _ _ _ hcb _ _ _ h2
          obtain ⟨lx, hget, hcol⟩ := ih (ln+1) st' cb' bs' hcb' r hr
          have hge := pyScanF_line_ge w ls (ln+1) st' cb' bs' r hr
          refine ⟨lx, ?_, hcol⟩
          have hix : r.line - ln = (r.line - (ln+1)) + 1 := by omega
          rw [hix, List.getElem?_cons_succ]
          exact hget

lemma xmlScanF_cons (w : Nat) (l : List Char) (ls : List (List Char))
    (ln : Nat) (st : XSt) :
    xmlScanF w (l :: ls) ln st =
      if xmlSkip l ∧ st ≠ XSt.inBlock then xmlScanF w ls (ln+1) st
      else
        ((xmlLine w l ln (l.length + 1) 0 st).1 ++
           (xmlScanF w ls (ln+1) (xmlLine w l ln (l.length + 1) 0 st).2).1,
         (xmlScanF w ls (ln+1) (xmlLine w l ln (l.length + 1) 0 st).2).2) := rfl

lemma xmlScanF_line_ge (w : Nat) :
    ∀ ls ln st, ∀ r ∈ (xmlScanF w ls ln st).1, ln ≤ r.line := by
  intro ls
  induction ls with
  | nil => intro ln st r hr; simp [xmlScanF] at hr
  | cons l ls ih =>
    intro ln st r hr
    rw [xmlScanF_cons] at hr
    split at hr
    · have := ih (ln+1) st r hr; omega
    · rw [List.mem_append] at hr
      rcases hr with hr | hr
      · exact le_of_eq (xmlLine_line w l ln _ _ _ r hr).symm
      · have := ih (ln+1) _ r hr; omega

lemma xmlScanF_sorted (w : Nat) :
    ∀ ls ln st, ((xmlScanF w ls ln st).1).Pairwise (fun a b => a.line ≤ b.line) := by
  intro ls
  induction ls with
  | nil => intro ln st; simp [xmlScanF]
  | cons l ls ih =>
    intro ln st
    rw [xmlScanF_cons]
    split
    · exact ih (ln+1) st
    · refine List.pairwise_append.mpr ⟨?_, ih (ln+1) _, ?_⟩
      · exact pairwise_of_const (xmlLine_line w l ln _ _ _)
      · intro a ha b hb
        have h1 := xmlLine_line w l ln _ _ _ a ha
        have h2 := xmlScanF_line_ge w ls (ln+1) _ b hb
        omega

lemma xmlScanF_loc (w : Nat) :
    ∀ ls ln st, ∀ r ∈ (xmlScanF w ls ln st).1,
      ∃ lx, ls[r.line - ln]? = some lx ∧
        r.col ≤ lx.length + lx.count '\t' * (w - 1) := by
  intro ls
  induction ls with
  | nil => intro ln st r hr; simp [xmlScanF] at hr
  | cons l ls ih =>
    intro ln st r hr
    rw [xmlScanF_cons] at hr
    split at hr
    · obtain ⟨lx, hget, hcol⟩ := ih (ln+1) st r hr
      have hge := xmlScanF_line_ge w ls (ln+1) st r hr
      refine ⟨lx, ?_, hcol⟩
      have hix : r.line - ln = (r.line - (ln+1)) + 1 := by omega
      rw [hix, List.getElem?_cons_succ]
      exact hget
    · rw [List.mem_append] at hr
      rcases hr with hr | hr
      · have hline := xmlLine_line w l ln _ _ _ r hr
        have hcol := xmlLine_col w l ln _ _ _ r hr
        refine ⟨l, ?_, hcol⟩
        rw [hline]
        simp
      · obtain ⟨lx, hget, hcol⟩ := ih (ln+1) _ r hr
        have hge := xmlScanF_line_ge w ls (ln+1) _ r hr
        refine ⟨lx, ?_, hcol⟩
        have hix : r.line - ln = (r.line - (ln+1)) + 1 := by omega
        rw [hix, List.getElem?_cons_succ]
        exact hget

/-! ## The fast path versus the plain scan (claim C2) -/

lemma cScanS_cons (w : Nat) (l : List Char) (ls : List (List Char))
    (ln : Nat) (st : CState) :
    cScanS w (l :: ls) ln st =
      ((cLine w l ln (l.length + 1) 0 st).1 ++
         (cScanS w ls (ln+1) (cLine w l ln (l.length + 1) 0 st).2).1,
       (cScanS w ls (ln+1) (cLine w l ln (l.length + 1) 0 st).2).2) := rfl

/-- On a line with no quote characters the machine never moves into (or out
to) a string state. -/
lemma cLine_noString (w : Nat) (l : List Char) (ln : Nat)
    (hq1 : '"' ∉ l) (hq2 : '\'' ∉ l) :
    ∀ fuel i st, (∀ q, st ≠ CState.inString q) →
      ∀ q', (cLine w l ln fuel i st).2 ≠ CState.inString q' := by
  intro fuel
  induction fuel with
  | zero =>
    intro i st hst q'
    rw [cLine_zero]
    exact hst q'
  | succ fuel ih =>
    intro i st hst q'
    cases st with
    | normal =>
      rw [cLine_succ_normal]
      split
      · rename_i hguard
        split
        · simp
        · split
          · split
            · simp
            · exact ih _ _ (by intro q h; cases h) q'
          · split
            · rename_i hdq
              exfalso
              have : l.getD i ' ' ∈ l := getD_mem (by omega)
              rw [hdq] at this
              exact hq1 this
            · split
              · rename_i hdq'
                exfalso
                have : l.getD i ' ' ∈ l := getD_mem (by omega)
                rw [hdq'] at this
                exact hq2 this
              · exact ih _ _ (by intro q h; cases h) q'
      · simp
    | inString q => exact absurd rfl (hst q)
    | inBlock =>
      rw [cLine_succ_inBlock]
      split
      · split
        · simp
        · exact ih _ _ (by intro q h; cases h) q'
      · simp

/-- A line that passes the fast path test and has no quote characters is a
no-op for the character loop started in the normal state. -/
lemma cLine_skip_nil (w : Nat) (l : List Char) (ln : Nat)
    (hsk : cSkip l = true) (hq1 : '"' ∉ l) (hq2 : '\'' ∉ l) :
    ∀ fuel i, cLine w l ln fuel i CState.normal = ([], CState.normal) := by
  have hsk' : hasSub l tokSS = false ∧ hasSub l tokSB = false ∧
      hasSub l tokBS = false := by
    rw [cSkip] at hsk
    simp at hsk
    exact ⟨hsk.1.1, hsk.1.2, hsk.2⟩
  intro fuel
  induction fuel with
  | zero => intro i; rw [cLine_zero]
  | succ fuel ih =>
    intro i
    rw [cLine_succ_normal]
    split
    · rename_i hguard
      rw [hasSub_false (by simp [tokSS]) hsk'.1 i]
      rw [hasSub_false (by simp [tokSB]) hsk'.2.1 i]
      have hd1 : ¬ l.getD i ' ' = '"' := by
        intro hdq
        have : l.getD i ' ' ∈ l := getD_mem (by omega)
        rw [hdq] at this
        exact hq1 this
      have hd2 : ¬ l.getD i ' ' = '\'' := by
        intro hdq
        have : l.getD i ' ' ∈ l := getD_mem (by omega)
        rw [hdq] at this
        exact hq2 this
      simp only [Bool.false_eq_true, if_false, hd1, hd2]
      exact ih (i+1)
    · rfl

/-- On quote-free input the scan with the fast path and the scan without it
agree line by line. -/
lemma cScan_eq (w : Nat) :
    ∀ ls ln st, (∀ l ∈ ls, '"' ∉ l ∧ '\'' ∉ l) →
      (∀ q, st ≠ CState.inString q) →
      cScanF w ls ln st = cScanS w ls ln st := by
  intro ls
  induction ls with
  | nil => intro ln st hq hst; rfl
  | cons l ls ih =>
    intro ln st hq hst
    have hql := hq l (List.mem_cons_self l ls)
    have hqs : ∀ x ∈ ls, '"' ∉ x ∧ '\'' ∉ x :=
      fun x hx => hq x (List.mem_cons_of_mem l hx)
    rw [cScanF_cons, cScanS_cons]
    split
    · rename_i hcond
      -- a skipped line: the plain scan does nothing on it either
      have hstn : st = CState.normal := by
        cases st with
        | normal => rfl
        | inString q => exact absurd rfl (hst q)
        | inBlock => exact absurd rfl hcond.2
      subst hstn
      rw [cLine_skip_nil w l ln hcond.1 hql.1 hql.2]
      rw [ih (ln+1) CState.normal hqs (by intro q h; cases h)]
      simp
    · have hst' := cLine_noString w l ln hql.1 hql.2 (l.length + 1) 0 st hst
      rw [ih (ln+1) _ hqs hst']
/-! ## Emission-point columns, branch by branch -/

lemma cSlash_emit (w : Nat) (l : List Char) (ln fuel i : Nat)
    (hg : i < l.length - 1) (hm : matchAt l i tokSS = true) :
    cLine w l ln (fuel+1) i CState.normal =
      ([⟨l.drop (i+2), ln, i + 2 + tabsWin w l (i+2)⟩], CState.normal) := by
  rw [cLine_succ_normal, if_pos hg, if_pos hm]

lemma cStar_none_emit (w : Nat) (l : List Char) (ln fuel i : Nat)
    (hg : i < l.length - 1) (hm1 : matchAt l i tokSS = false)
    (hm2 : matchAt l i tokSB = true) (hf : findFrom l tokBS (i+2) = none) :
    cLine w l ln (fuel+1) i CState.normal =
      ([⟨l.drop (i+2), ln, i + 2 + tabsWin w l (i+2)⟩], CState.inBlock) := by
  rw [cLine_succ_normal, if_pos hg]
  simp only [hm1, Bool.false_eq_true, if_false, hm2, if_true, hf]

lemma cStar_some_head (w : Nat) (l : List Char) (ln fuel i pos : Nat)
    (hg : i < l.length - 1) (hm1 : matchAt l i tokSS = false)
    (hm2 : matchAt l i tokSB = true) (hf : findFrom l tokBS (i+2) = some pos) :
    (cLine w l ln (fuel+1) i CState.normal).1.head? =
      some ⟨slice l (i+2) pos, ln, i + 2 + tabsWin w l (i+2)⟩ := by
  rw [cLine_succ_normal, if_pos hg]
  simp only [hm1, Bool.false_eq_true, if_false, hm2, if_true, hf]
  rfl

lemma cBlock_none_emit (w : Nat) (l : List Char) (ln fuel i : Nat)
    (hg : i < l.length - 1) (hf : findFrom l tokBS i = none) :
    cLine w l ln (fuel+1) i CState.inBlock =
      ([⟨l.drop i, ln, i⟩], CState.inBlock) := by
  rw [cLine_succ_inBlock, if_pos hg, hf]

lemma cBlock_some_head (w : Nat) (l : List Char) (ln fuel i pos : Nat)
    (hg : i < l.length - 1) (hf : findFrom l tokBS i = some pos) :
    (cLine w l ln (fuel+1) i CState.inBlock).1.head? =
      some ⟨slice l i pos, ln, i⟩ := by
  rw [cLine_succ_inBlock, if_pos hg, hf]
  rfl

lemma pyHash_head (w : Nat) (l : List Char) (ln fuel i : Nat)
    (cb : Option Bool) (bs : Option (List Char))
    (hg : i < l.length - 1) (hm : l.getD i ' ' = '#') :
    (pyLine w l ln (fuel+1) i PSt.normal cb bs).1.head? =
      some ⟨l.drop (i+1), ln, i + 1 + tabsWin w l (i+2)⟩ := by
  rw [pyLine_succ_normal, if_pos hg, if_pos hm]
  cases cb with
  | none => rfl
  | some b =>
    cases b with
    | false => rfl
    | true =>
      cases bs with
      | none => rfl
      | some b' =>
        cases hf : findFrom l b' (i+3) with
        | none => simp only [hf]; rfl
        | some pos => simp only [hf]; rfl

lemma pyTrip1_none_emit (w : Nat) (l : List Char) (ln fuel i : Nat)
    (cb : Option Bool) (bs : Option (List Char))
    (hg : i < l.length - 1) (hh : ¬ l.getD i ' ' = '#')
    (hm : matchAt l i pyT1 = true) (hf : findFrom l pyT1 (i+3) = none) :
    pyLine w l ln (fuel+1) i PSt.normal cb bs =
      ([⟨l.drop (i+3), ln, i + 3 + tabsWin w l (i+2)⟩],
       PyOut.ok PSt.inBlock (some false) (some pyT1)) := by
  rw [pyLine_succ_normal, if_pos hg, if_neg hh, if_pos hm, hf]

lemma pyTrip1_some_head (w : Nat) (l : List Char) (ln fuel i pos : Nat)
    (cb : Option Bool) (bs : Option (List Char))
    (hg : i < l.length - 1) (hh : ¬ l.getD i ' ' = '#')
    (hm : matchAt l i pyT1 = true) (hf : findFrom l pyT1 (i+3) = some pos) :
    (pyLine w l ln (fuel+1) i PSt.normal cb bs).1.head? =
      some ⟨slice l (i+3) pos, ln, i + 3 + tabsWin w l (i+2)⟩ := by
  rw [pyLine_succ_normal, if_pos hg, if_neg hh, if_pos hm, hf]
  rfl

lemma pyTrip2_none_emit (w : Nat) (l : List Char) (ln fuel i : Nat)
    (cb : Option Bool) (bs : Option (List Char))
    (hg : i < l.length - 1) (hh : ¬ l.getD i ' ' = '#')
    (hm1 : matchAt l i pyT1 = false) (hm : matchAt l i pyT2 = true)
    (hf : findFrom l pyT2 (i+3) = none) :
    pyLine w l ln (fuel+1) i PSt.normal cb bs =
      ([⟨l.drop (i+3), ln, i + 3 + tabsWin w l (i+2)⟩],
       PyOut.ok PSt.inBlock (some false) (some pyT2)) := by
  rw [pyLine_succ_normal, if_pos hg, if_neg hh]
  simp only [hm1, Bool.false_eq_true, if_false, hm, if_true, hf]

lemma pyTrip2_some_head (w : Nat) (l : List Char) (ln fuel i pos : Nat)
    (cb : Option Bool) (bs : Option (List Char))
    (hg : i < l.length - 1) (hh : ¬ l.getD i ' ' = '#')
    (hm1 : matchAt l i pyT1 = false) (hm : matchAt l i pyT2 = true)
    (hf : findFrom l pyT2 (i+3) = some pos) :
    (pyLine w l ln (fuel+1) i PSt.normal cb bs).1.head? =
      some ⟨slice l (i+3) pos, ln, i + 3 + tabsWin w l (i+2)⟩ := by
  rw [pyLine_succ_normal, if_pos hg, if_neg hh]
  simp only [hm1, Bool.false_eq_true, if_false, hm, if_true, hf]
  rfl

lemma pyBlock_none_emit (w : Nat) (l : List Char) (ln fuel i : Nat)
    (cb : Option Bool) (b : List Char)
    (hg : i < l.length - 1) (hf : findFrom l b i = none) :
    pyLine w l ln (fuel+1) i PSt.inBlock cb (some b) =
      ([⟨l.drop i, ln, i⟩], PyOut.ok PSt.inBlock cb (some b)) := by
  rw [pyLine_succ_inBlock, if_pos hg]
  simp only [hf]

lemma pyBlock_some_head (w : Nat) (l : List Char) (ln fuel i pos : Nat)
    (cb : Option Bool) (b : List Char)
    (hg : i < l.length - 1) (hf : findFrom l b i = some pos) :
    (pyLine w l ln (fuel+1) i PSt.inBlock cb (some b)).1.head? =
      some ⟨slice l i pos, ln, i⟩ := by
  rw [pyLine_succ_inBlock, if_pos hg]
  simp only [hf]
  rfl

lemma xmlOpen_none_emit (w : Nat) (l : List Char) (ln fuel i : Nat)
    (hg : i < l.length - 1) (hm : matchAt l i xmlOpen = true)
    (hf : findFrom l xmlClose (i+3) = none) :
    xmlLine w l ln (fuel+1) i XSt.normal =
      ([⟨l.drop (i+4), ln, i + 4 + tabsWin w l (i+2)⟩], XSt.inBlock) := by
  rw [xmlLine_succ_normal, if_pos hg, if_pos hm, hf]

lemma xmlOpen_some_head (w : Nat) (l : List Char) (ln fuel i pos : Nat)
    (hg : i < l.length - 1) (hm : matchAt l i xmlOpen = true)
    (hf : findFrom l xmlClose (i+3) = some pos) :
    (xmlLine w l ln (fuel+1) i XSt.normal).1.head? =
      some ⟨l.drop (i+4), ln, i + 4⟩ := by
  rw [xmlLine_succ_normal, if_pos hg, if_pos hm, hf]
  rfl

lemma xmlBlock_none_emit (w : Nat) (l : List Char) (ln fuel i : Nat)
    (hg : i < l.length - 1) (hf : findFrom l xmlClose i = none) :
    xmlLine w l ln (fuel+1) i XSt.inBlock = ([⟨l.drop i, ln, i⟩], XSt.inBlock) := by
  rw [xmlLine_succ_inBlock, if_pos hg, hf]

lemma xmlBlock_some_head (w : Nat) (l : List Char) (ln fuel i pos : Nat)
    (hg : i < l.length - 1) (hf : findFrom l xmlClose i = some pos) :
    (xmlLine w l ln (fuel+1) i XSt.inBlock).1.head? =
      some ⟨slice l i pos, ln, i⟩ := by
  rw [xmlLine_succ_inBlock, if_pos hg, hf]
  rfl

/-! ## Case folding for the dispatcher -/

lemma toNat_ofNat_valid {n : Nat} (h : n.isValidChar) : (Char.ofNat n).toNat = n := by
  rw [Char.ofNat, dif_pos h]
  rfl

lemma lower_upper (c : Char) : lowerChar (upperChar c) = lowerChar c := by
  by_cases h : 97 ≤ c.toNat ∧ c.toNat ≤ 122
  · rw [upperChar, if_pos h]
    have hv : (c.toNat - 32).isValidChar := Or.inl (by omega)
    have ht : (Char.ofNat (c.toNat - 32)).toNat = c.toNat - 32 := toNat_ofNat_valid hv
    rw [lowerChar, if_pos (by omega :
      65 ≤ (Char.ofNat (c.toNat - 32)).toNat ∧ (Char.ofNat (c.toNat - 32)).toNat ≤ 90)]
    rw [ht]
    have h32 : c.toNat - 32 + 32 = c.toNat := by omega
    rw [h32, Char.ofNat_toNat]
    rw [lowerChar, if_neg (by omega)]
  · rw [upperChar, if_neg h]

lemma map_lower_upper (name : List Char) :
    (name.map upperChar).map lowerChar = name.map lowerChar := by
  rw [List.map_map]
  exact List.map_congr_left fun c _ => lower_upper c

/-! ## The loop guard: the last character of a line is never examined -/

lemma cLine_exit (w : Nat) (l : List Char) (ln fuel i : Nat) (st : CState)
    (h : l.length - 1 ≤ i) : cLine w l ln fuel i st = ([], st) := by
  cases fuel with
  | zero => rw [cLine_zero]
  | succ fuel =>
    cases st with
    | normal => rw [cLine_succ_normal, if_neg (by omega)]
    | inString q => rw [cLine_succ_inString, if_neg (by omega)]
    | inBlock => rw [cLine_succ_inBlock, if_neg (by omega)]

lemma pyLine_exit (w : Nat) (l : List Char) (ln fuel i : Nat) (st : PSt)
    (cb : Option Bool) (bs : Option (List Char))
    (h : l.length - 1 ≤ i) : pyLine w l ln fuel i st cb bs = ([], PyOut.ok st cb bs) := by
  cases fuel with
  | zero => rw [pyLine_zero]
  | succ fuel =>
    cases st with
    | normal => rw [pyLine_succ_normal, if_neg (by omega)]
    | inBlock => rw [pyLine_succ_inBlock, if_neg (by omega)]

lemma xmlLine_exit (w : Nat) (l : List Char) (ln fuel i : Nat) (st : XSt)
    (h : l.length - 1 ≤ i) : xmlLine w l ln fuel i st = ([], st) := by
  cases fuel with
  | zero => rw [xmlLine_zero]
  | succ fuel =>
    cases st with
    | normal => rw [xmlLine_succ_normal, if_neg (by omega)]
    | inBlock => rw [xmlLine_succ_inBlock, if_neg (by omega)]

/-! ## Claim theorems -/

/-- C1: the spec claims that on the single-line input `x = 1  # note` the
Python-style scanner emits exactly one record with text `" note"` and
completes without error.  The code instead reads the local `comment_block`
before any assignment at index 0 and raises `UnboundLocalError`, emitting
nothing: the claim is right about the intent and the code is wrong. -/
theorem claim1_py_note_crashes :
    py_style 4 ["x = 1  # note".toList] = ([], PyOut.err) := by decide

/-- C7: on the single-line input `printf("// not a comment");` the C-style
scanner emits zero records, because the `"` switches the machine to the
string state, which suppresses recognition of `//` until the closing
quote. -/
theorem claim7_quote_awareness :
    c_style 4 ["printf(\"// not a comment\");".toList] = ([], CState.normal) := by
  decide

/-- C8: on the single-line XML input `<!-- hi -->` the scanner emits exactly
one record whose text is `" hi -->"` (the slice runs from index+4 to the end
of the line, not truncated at `-->`), and the final state is Normal. -/
theorem claim8_xml_not_truncated :
    xml_style 4 ["<!-- hi -->".toList] =
      ([⟨" hi -->".toList, 1, 4⟩], XSt.normal) := by decide

/-- C9: dispatch is case-insensitive (upper-casing a filename selects the
same scanner), total (`none` characterised exactly as "no known suffix",
never an error), and maps `.py` to Python style, `.c`/`.cpp`/`.h` to C
style, `.xml`/`.html`/`.htm` to XML style, with `a.rs` getting `none`. -/
theorem claim9_dispatch :
    (∀ name : List Char, check_file (name.map upperChar) = check_file name) ∧
    (∀ name : List Char, check_file name = none ↔
      (¬ ".py".toList <:+ name.map lowerChar ∧
       ¬ ".cpp".toList <:+ name.map lowerChar ∧
       ¬ ".c".toList <:+ name.map lowerChar ∧
       ¬ ".h".toList <:+ name.map lowerChar ∧
       ¬ ".xml".toList <:+ name.map lowerChar ∧
       ¬ ".html".toList <:+ name.map lowerChar ∧
       ¬ ".htm".toList <:+ name.map lowerChar)) ∧
    check_file "a.PY".toList = some Dialect.py ∧
    check_file "a.py".toList = some Dialect.py ∧
    check_file "a.c".toList = some Dialect.c ∧
    check_file "A.CPP".toList = some Dialect.c ∧
    check_file "b.h".toList = some Dialect.c ∧
    check_file "a.xml".toList = some Dialect.xml ∧
    check_file "a.HTML".toList = some Dialect.xml ∧
    check_file "x.htm".toList = some Dialect.xml ∧
    check_file "a.rs".toList = none := by
  refine ⟨?_, ?_, ?_, ?_, ?_, ?_, ?_, ?_, ?_, ?_, ?_⟩
  · intro name
    simp only [check_file, map_lower_upper]
  · intro name
    simp only [check_file]
    split_ifs with h1 h2 h3 <;> simp_all <;> tauto
  all_goals decide

/-- C5: for every input and every scanner variant, the line numbers across
the emitted record sequence are non-decreasing. -/
theorem claim5_lines_monotone :
    ∀ (w : Nat) (lines : List (List Char)),
      ((c_style w lines).1.map CommentRec.line).Pairwise (· ≤ ·) ∧
      ((py_style w lines).1.map CommentRec.line).Pairwise (· ≤ ·) ∧
      ((xml_style w lines).1.map CommentRec.line).Pairwise (· ≤ ·) := by
  intro w lines
  refine ⟨?_, ?_, ?_⟩
  · rw [List.pairwise_map]
    exact cScanF_sorted w lines 1 CState.normal
  · rw [List.pairwise_map]
    exact pyScanF_sorted w lines 1 PSt.normal none none
  · rw [List.pairwise_map]
    exact xmlScanF_sorted w lines 1 XSt.normal

/-- C4, counterexample: on `\t\t//x` (raw length 5) the C-style scanner
reports column 10 = 2+2 + 2·3, which exceeds the raw, untranslated length of
the line, so "column ∈ [0, length of that physical line]" fails. -/
theorem claim4_counterexample :
    ¬ (∀ r ∈ (c_style 4 ["\t\t//x".toList]).1,
        r.col ≤ ("\t\t//x".toList).length) := by decide

/-- C4, amended: every emitted record's column lies within the tab-expanded
length of its physical line, `raw length + (tabs in line)·(tab_width − 1)`
(the raw-length bound fails when tabs precede an emission point). -/
theorem claim4_col_in_expanded_line :
    ∀ (w : Nat) (lines : List (List Char)),
      (∀ r ∈ (c_style w lines).1, ∃ l, lines[r.line - 1]? = some l ∧
        r.col ≤ l.length + l.count '\t' * (w - 1)) ∧
      (∀ r ∈ (py_style w lines).1, ∃ l, lines[r.line - 1]? = some l ∧
        r.col ≤ l.length + l.count '\t' * (w - 1)) ∧
      (∀ r ∈ (xml_style w lines).1, ∃ l, lines[r.line - 1]? = some l ∧
        r.col ≤ l.length + l.count '\t' * (w - 1)) := by
  intro w lines
  refine ⟨?_, ?_, ?_⟩
  · exact cScanF_loc w lines 1 CState.normal
  · exact pyScanF_loc w lines 1 PSt.normal none none (by simp)
  · exact xmlScanF_loc w lines 1 XSt.normal

/-- C4 witness: the amended bound applied at a concrete input. -/
theorem claim4_col_in_expanded_line_witness :
    ∃ l, (["\t// x".toList])[(⟨" x".toList, 1, 6⟩ : CommentRec).line - 1]? = some l ∧
      (⟨" x".toList, 1, 6⟩ : CommentRec).col ≤ l.length + l.count '\t' * (4 - 1) :=
  (claim4_col_in_expanded_line 4 ["\t// x".toList]).1 ⟨" x".toList, 1, 6⟩ (by decide)

/-- C2, counterexample: the fast path is not semantically transparent.  On
the two-line input `x = "abc` / `// hi` the scanner with the fast path skips
line 1 (no `//`, `/*`, `*/` in it), misses the unterminated string, and
emits a record for line 2; with the fast path removed, line 1 puts the
machine in the string state and line 2 emits nothing. -/
theorem claim2_counterexample :
    c_style 4 ["x = \"abc".toList, "// hi".toList] ≠
      c_styleNoSkip 4 ["x = \"abc".toList, "// hi".toList] := by decide

/-- C2, amended: the fast path is semantically transparent (same records and
same final state) for every input none of whose lines contains a quote
character `"` or `'`; a skipped quote-bearing line can otherwise change the
string-state tracking, and with it the output. -/
theorem claim2_fast_path_quote_free :
    ∀ (w : Nat) (lines : List (List Char)),
      (∀ l ∈ lines, '"' ∉ l ∧ '\'' ∉ l) →
      c_style w lines = c_styleNoSkip w lines := by
  intro w lines h
  exact cScan_eq w lines 1 CState.normal h (by intro q hq; cases hq)

/-- C2 witness: fast path and plain scan agree on a concrete quote-free
input exercising `//`, an unterminated `/*`, and a continuation line. -/
theorem claim2_fast_path_quote_free_witness :
    c_style 4 ["ab".toList, "// x".toList, "/* y".toList, "z */ t".toList] =
      c_styleNoSkip 4 ["ab".toList, "// x".toList, "/* y".toList, "z */ t".toList] :=
  claim2_fast_path_quote_free 4
    ["ab".toList, "// x".toList, "/* y".toList, "z */ t".toList] (by decide)

/-- C10: in all three scanners the character loop runs only while
`index < len(line) - 1`, so it exits as soon as `len(line) - 1 ≤ index`
(first three conjuncts); consequently, a `#` sitting at the final index of a
final, newline-free line yields no record from the Python-style scanner
(fourth conjunct; the guard on the earlier characters keeps them from
emitting or opening a block first). -/
theorem claim10_final_index_unexamined :
    (∀ (w : Nat) (l : List Char) (ln fuel i : Nat) (st : CState),
       l.length - 1 ≤ i → cLine w l ln fuel i st = ([], st)) ∧
    (∀ (w : Nat) (l : List Char) (ln fuel i : Nat) (st : PSt) (cb : Option Bool)
       (bs : Option (List Char)), l.length - 1 ≤ i →
         pyLine w l ln fuel i st cb bs = ([], PyOut.ok st cb bs)) ∧
    (∀ (w : Nat) (l : List Char) (ln fuel i : Nat) (st : XSt),
       l.length - 1 ≤ i → xmlLine w l ln fuel i st = ([], st)) ∧
    (∀ (w : Nat) (pre : List Char),
       (pre = [] ∨ ((pre ++ ['#']).getD 0 ' ' ≠ '#' ∧
         matchAt (pre ++ ['#']) 0 pyT1 = false ∧
         matchAt (pre ++ ['#']) 0 pyT2 = false)) →
       (py_style w [pre ++ ['#']]).1 = []) := by
  refine ⟨?_, ?_, ?_, ?_⟩
  · intro w l ln fuel i st h
    exact cLine_exit w l ln fuel i st h
  · intro w l ln fuel i st cb bs h
    exact pyLine_exit w l ln fuel i st cb bs h
  · intro w l ln fuel i st h
    exact xmlLine_exit w l ln fuel i st h
  · intro w pre h
    have hskip : pySkip (pre ++ ['#']) = false := by
      have hm : matchAt (pre ++ ['#']) pre.length ['#'] = true := by
        rw [matchAt_iff]
        rw [List.drop_left]
        rfl
      have hs := hasSub_intro (by simp) hm
      rw [pySkip, hs]
      rfl
    rcases h with rfl | ⟨h1, h2, h3⟩
    · rw [py_style, pyScanF_cons, if_neg (by simp at hskip; simp [hskip])]
      rw [pyLine_exit w _ 1 _ 0 _ _ _ (by simp)]
      rfl
    · have hpre : pre ≠ [] := by
        intro hp
        subst hp
        exact h1 rfl
      have hlen : 1 ≤ pre.length := by
        cases pre with
        | nil => exact absurd rfl hpre
        | cons a t => simp
      rw [py_style, pyScanF_cons, if_neg (by simp [hskip])]
      rw [pyLine_succ_normal, if_pos (by simp; omega), if_neg h1]
      simp only [h2, Bool.false_eq_true, if_false, h3]

/-- C10 witness: the loop-exit equations at concrete positions, and the
input `x #` (a `#` at the last index of the final line) producing no
record. -/
theorem claim10_final_index_unexamined_witness :
    cLine 4 "ab".toList 1 5 3 CState.normal = ([], CState.normal) ∧
    pyLine 4 "ab".toList 1 5 1 PSt.normal none none =
      ([], PyOut.ok PSt.normal none none) ∧
    xmlLine 4 "ab".toList 1 5 1 XSt.normal = ([], XSt.normal) ∧
    (py_style 4 [['x', ' '] ++ ['#']]).1 = [] :=
  ⟨claim10_final_index_unexamined.1 4 "ab".toList 1 5 3 CState.normal (by decide),
   claim10_final_index_unexamined.2.1 4 "ab".toList 1 5 1 PSt.normal none none
     (by decide),
   claim10_final_index_unexamined.2.2.1 4 "ab".toList 1 5 1 XSt.normal (by decide),
   claim10_final_index_unexamined.2.2.2 4 ['x', ' '] (Or.inr (by decide))⟩

/-- C6: every comment-opening emission of the Python-style scanner computes
its tab count over the prefix `line[0:index+2]` — the emitted column is
`index+1` (for `#`) or `index+3` (for either triple quote, whether or not it
closes on the same line) plus `count of tabs in line[0:index+2]` times
`tab_width − 1`; the count bound is `index+2` in all five branches, never
`index+1` or `index+3`. -/
theorem claim6_py_tab_count_window :
    (∀ (w : Nat) (l : List Char) (ln fuel i : Nat) (cb : Option Bool)
       (bs : Option (List Char)), i < l.length - 1 → l.getD i ' ' = '#' →
       (pyLine w l ln (fuel+1) i PSt.normal cb bs).1.head? =
         some ⟨l.drop (i+1), ln, i + 1 + ((l.take (i+2)).count '\t') * (w - 1)⟩) ∧
    (∀ (w : Nat) (l : List Char) (ln fuel i : Nat) (cb : Option Bool)
       (bs : Option (List Char)), i < l.length - 1 → ¬ l.getD i ' ' = '#' →
       matchAt l i pyT1 = true → findFrom l pyT1 (i+3) = none →
       pyLine w l ln (fuel+1) i PSt.normal cb bs =
         ([⟨l.drop (i+3), ln, i + 3 + ((l.take (i+2)).count '\t') * (w - 1)⟩],
          PyOut.ok PSt.inBlock (some false) (some pyT1))) ∧
    (∀ (w : Nat) (l : List Char) (ln fuel i pos : Nat) (cb : Option Bool)
       (bs : Option (List Char)), i < l.length - 1 → ¬ l.getD i ' ' = '#' →
       matchAt l i pyT1 = true → findFrom l pyT1 (i+3) = some pos →
       (pyLine w l ln (fuel+1) i PSt.normal cb bs).1.head? =
         some ⟨slice l (i+3) pos, ln,
               i + 3 + ((l.take (i+2)).count '\t') * (w - 1)⟩) ∧
    (∀ (w : Nat) (l : List Char) (ln fuel i : Nat) (cb : Option Bool)
       (bs : Option (List Char)), i < l.length - 1 → ¬ l.getD i ' ' = '#' →
       matchAt l i pyT1 = false → matchAt l i pyT2 = true →
       findFrom l pyT2 (i+3) = none →
       pyLine w l ln (fuel+1) i PSt.normal cb bs =
         ([⟨l.drop (i+3), ln, i + 3 + ((l.take (i+2)).count '\t') * (w - 1)⟩],
          PyOut.ok PSt.inBlock (some false) (some pyT2))) ∧
    (∀ (w : Nat) (l : List Char) (ln fuel i pos : Nat) (cb : Option Bool)
       (bs : Option (List Char)), i < l.length - 1 → ¬ l.getD i ' ' = '#' →
       matchAt l i pyT1 = false → matchAt l i pyT2 = true →
       findFrom l pyT2 (i+3) = some pos →
       (pyLine w l ln (fuel+1) i PSt.normal cb bs).1.head? =
         some ⟨slice l (i+3) pos, ln,
               i + 3 + ((l.take (i+2)).count '\t') * (w - 1)⟩) := by
  refine ⟨?_, ?_, ?_, ?_, ?_⟩
  · intro w l ln fuel i cb bs hg hm
    exact pyHash_head w l ln fuel i cb bs hg hm
  · intro w l ln fuel i cb bs hg hh hm hf
    exact pyTrip1_none_emit w l ln fuel i cb bs hg hh hm hf
  · intro w l ln fuel i pos cb bs hg hh hm hf
    exact pyTrip1_some_head w l ln fuel i pos cb bs hg hh hm hf
  · intro w l ln fuel i cb bs hg hh hm1 hm hf
    exact pyTrip2_none_emit w l ln fuel i cb bs hg hh hm1 hm hf
  · intro w l ln fuel i pos cb bs hg hh hm1 hm hf
    exact pyTrip2_some_head w l ln fuel i pos cb bs hg hh hm1 hm hf

/-- C6 witness: the `#` branch with a tab inside the count window
(`line[0:index+2]` reaches one character past the `#`), and an unterminated
triple quote opening at index 0. -/
theorem claim6_py_tab_count_window_witness :
    (pyLine 4 "x#\ty".toList 1 2 1 PSt.normal (some false) none).1.head? =
      some ⟨"\ty".toList, 1, 1 + 1 + (("x#\ty".toList.take 3).count '\t') * (4 - 1)⟩ ∧
    pyLine 4 "\'\'\'ab".toList 1 5 0 PSt.normal none none =
      ([⟨"ab".toList, 1, 0 + 3 + (("\'\'\'ab".toList.take 2).count '\t') * (4 - 1)⟩],
       PyOut.ok PSt.inBlock (some false) (some pyT1)) :=
  ⟨claim6_py_tab_count_window.1 4 "x#\ty".toList 1 1 1 (some false) none
     (by decide) (by decide),
   claim6_py_tab_count_window.2.1 4 "\'\'\'ab".toList 1 4 0 none none
     (by decide) (by decide) (by decide) (by decide)⟩

/-- C3, counterexample: on `\t<!-- hi -->` the XML-style scanner takes the
branch where `-->` is found on the same line and emits the record
`(" hi -->", 1, 5)`: the emitted text starts at raw index 5 and the line has
a tab before it, so the tab-corrected column would be 5 + 1·(4−1) = 8 — the
reported column 5 carries no tab correction, so the correction is NOT
applied at this emission point. -/
theorem claim3_counterexample :
    (xml_style 4 ["\t<!-- hi -->".toList]).1 = [⟨" hi -->".toList, 1, 5⟩] ∧
    (5 : Nat) ≠ 5 + (("\t<!-- hi -->".toList.take 5).count '\t') * (4 - 1) := by
  exact ⟨by decide, by decide⟩

/-- C3, amended: the tab-expansion correction, with count window
`line[0:index+2]`, is applied at every comment-opening emission point of the
three scanners (C `//`, C `/*` with and without a same-line `*/`, Python `#`
and triple quotes per C6, XML `<!--` without a same-line `-->`); every
continuation-line emission (state `InBlockComment`) reports the raw index
with no correction term; and the one exception is the XML-style branch where
`-->` is found on the same line as `<!--`, which reports `index + 4` with no
tab correction at all. -/
theorem claim3_tab_correction_per_branch :
    (∀ (w : Nat) (l : List Char) (ln fuel i : Nat),
       i < l.length - 1 → matchAt l i tokSS = true →
       cLine w l ln (fuel+1) i CState.normal =
         ([⟨l.drop (i+2), ln, i + 2 + ((l.take (i+2)).count '\t') * (w - 1)⟩],
          CState.normal)) ∧
    (∀ (w : Nat) (l : List Char) (ln fuel i : Nat),
       i < l.length - 1 → matchAt l i tokSS = false → matchAt l i tokSB = true →
       findFrom l tokBS (i+2) = none →
       cLine w l ln (fuel+1) i CState.normal =
         ([⟨l.drop (i+2), ln, i + 2 + ((l.take (i+2)).count '\t') * (w - 1)⟩],
          CState.inBlock)) ∧
    (∀ (w : Nat) (l : List Char) (ln fuel i pos : Nat),
       i < l.length - 1 → matchAt l i tokSS = false → matchAt l i tokSB = true →
       findFrom l tokBS (i+2) = some pos →
       (cLine w l ln (fuel+1) i CState.normal).1.head? =
         some ⟨slice l (i+2) pos, ln,
               i + 2 + ((l.take (i+2)).count '\t') * (w - 1)⟩) ∧
    (∀ (w : Nat) (l : List Char) (ln fuel i : Nat),
       i < l.length - 1 → findFrom l tokBS i = none →
       cLine w l ln (fuel+1) i CState.inBlock =
         ([⟨l.drop i, ln, i⟩], CState.inBlock)) ∧
    (∀ (w : Nat) (l : List Char) (ln fuel i pos : Nat),
       i < l.length - 1 → findFrom l tokBS i = some pos →
       (cLine w l ln (fuel+1) i CState.inBlock).1.head? =
         some ⟨slice l i pos, ln, i⟩) ∧
    (∀ (w : Nat) (l : List Char) (ln fuel i : Nat),
       i < l.length - 1 → matchAt l i xmlOpen = true →
       findFrom l xmlClose (i+3) = none →
       xmlLine w l ln (fuel+1) i XSt.normal =
         ([⟨l.drop (i+4), ln, i + 4 + ((l.take (i+2)).count '\t') * (w - 1)⟩],
          XSt.inBlock)) ∧
    (∀ (w : Nat) (l : List Char) (ln fuel i pos : Nat),
       i < l.length - 1 → matchAt l i xmlOpen = true →
       findFrom l xmlClose (i+3) = some pos →
       (xmlLine w l ln (fuel+1) i XSt.normal).1.head? =
         some ⟨l.drop (i+4), ln, i + 4⟩) ∧
    (∀ (w : Nat) (l : List Char) (ln fuel i : Nat),
       i < l.length - 1 → findFrom l xmlClose i = none →
       xmlLine w l ln (fuel+1) i XSt.inBlock =
         ([⟨l.drop i, ln, i⟩], XSt.inBlock)) ∧
    (∀ (w : Nat) (l : List Char) (ln fuel i pos : Nat),
       i < l.length - 1 → findFrom l xmlClose i = some pos →
       (xmlLine w l ln (fuel+1) i XSt.inBlock).1.head? =
         some ⟨slice l i pos, ln, i⟩) ∧
    (∀ (w : Nat) (l : List Char) (ln fuel i : Nat) (cb : Option Bool)
       (bs : Option (List Char)), i < l.length - 1 → l.getD i ' ' = '#' →
       (pyLine w l ln (fuel+1) i PSt.normal cb bs).1.head? =
         some ⟨l.drop (i+1), ln,
               i + 1 + ((l.take (i+2)).count '\t') * (w - 1)⟩) ∧
    (∀ (w : Nat) (l : List Char) (ln fuel i : Nat) (cb : Option Bool) (b : List Char),
       i < l.length - 1 → findFrom l b i = none →
       pyLine w l ln (fuel+1) i PSt.inBlock cb (some b) =
         ([⟨l.drop i, ln, i⟩], PyOut.ok PSt.inBlock cb (some b))) ∧
    (∀ (w : Nat) (l : List Char) (ln fuel i pos : Nat) (cb : Option Bool)
       (b : List Char), i < l.length - 1 → findFrom l b i = some pos →
       (pyLine w l ln (fuel+1) i PSt.inBlock cb (some b)).1.head? =
         some ⟨slice l i pos, ln, i⟩) := by
  refine ⟨?_, ?_, ?_, ?_, ?_, ?_, ?_, ?_, ?_, ?_, ?_, ?_⟩
  · intro w l ln fuel i hg hm
    exact cSlash_emit w l ln fuel i hg hm
  · intro w l ln fuel i hg hm1 hm2 hf
    exact cStar_none_emit w l ln fuel i hg hm1 hm2 hf
  · intro w l ln fuel i pos hg hm1 hm2 hf
    exact cStar_some_head w l ln fuel i pos hg hm1 hm2 hf
  · intro w l ln fuel i hg hf
    exact cBlock_none_emit w l ln fuel i hg hf
  · intro w l ln fuel i pos hg hf
    exact cBlock_some_head w l ln fuel i pos hg hf
  · intro w l ln fuel i hg hm hf
    exact xmlOpen_none_emit w l ln fuel i hg hm hf
  · intro w l ln fuel i pos hg hm hf
    exact xmlOpen_some_head w l ln fuel i pos hg hm hf
  · intro w l ln fuel i hg hf
    exact xmlBlock_none_emit w l ln fuel i hg hf
  · intro w l ln fuel i pos hg hf
    exact xmlBlock_some_head w l ln fuel i pos hg hf
  · intro w l ln fuel i cb bs hg hm
    exact pyHash_head w l ln fuel i cb bs hg hm
  · intro w l ln fuel i cb b hg hf
    exact pyBlock_none_emit w l ln fuel i cb b hg hf
  · intro w l ln fuel i pos cb b hg hf
    exact pyBlock_some_head w l ln fuel i pos cb b hg hf

/-- C3 witness: the corrected `//` column and the uncorrected XML same-line
column, both behind a tab. -/
theorem claim3_tab_correction_per_branch_witness :
    cLine 4 "\t// x".toList 1 5 1 CState.normal =
      ([⟨" x".toList, 1, 1 + 2 + (("\t// x".toList.take 3).count '\t') * (4 - 1)⟩],
       CState.normal) ∧
    (xmlLine 4 "\t<!-- hi -->".toList 1 12 1 XSt.normal).1.head? =
      some ⟨" hi -->".toList, 1, 1 + 4⟩ :=
  ⟨claim3_tab_correction_per_branch.1 4 "\t// x".toList 1 4 1
     (by decide) (by decide),
   claim3_tab_correction_per_branch.2.2.2.2.2.2.1 4 "\t<!-- hi -->".toList 1 11 1 9
     (by decide) (by decide) (by decide)⟩

end CommentsParser
